import Mathlib

/-!
Verification of the textile streaming response pattern-rewriting engine
(`textile/core/response_handler.py` and `textile/core/response_pattern.py`),
shallowly embedded over `List Char`.

Regex matchers are modelled semantically as anchored matching functions
`List Char → Option Nat` returning the length of the match of a prefix of the
given suffix, which covers the two regex-engine primitives the source relies
on (anchored `match` on a slice and non-overlapping `finditer`/`sub` scans).
Literal patterns compile, as in the source, to an escaped exact matcher.
Replacement callables may fail; failure is modelled with `Except Unit`.
-/

set_option maxRecDepth 4000

abbrev Str := List Char

/-- The `stats` dictionary of `StreamingResponseHandler`. -/
structure Stats where
  chunks : Nat
  applied : Nat
  errors : Nat
deriving DecidableEq

def stats0 : Stats := ⟨0, 0, 0⟩

def Stats.add (a b : Stats) : Stats :=
  ⟨a.chunks + b.chunks, a.applied + b.applied, a.errors + b.errors⟩

/-- Semantic model of a compiled regex: anchored match on a suffix, returning
the length of the matched prefix of that suffix, or `none`. -/
abbrev Matcher := Str → Option Nat

/-- A validated, compiled `OnPattern` (dataclass in `response_pattern.py`):
the compiled pattern's source string (used for buffer-threshold sizing),
its matching semantics, the replacement resolver (`get_replacement`, which
may raise), and `max_replacements`. -/
structure OnPattern where
  patternStr : Str
  matchLen : Matcher
  repl : Str → Except Unit Str
  maxReplacements : Int

/-- Boolean prefix test on char lists. -/
def isPre : Str → Str → Bool
  | [], _ => true
  | _ :: _, [] => false
  | a :: as, b :: bs => a == b && isPre as bs

/-- Anchored matcher of an escaped literal: matches iff the literal is a
prefix of the text, with match length the literal's length. -/
def litMatch (lit : Str) : Matcher :=
  fun s => if isPre lit s then some lit.length else none

/-- Anchored case-insensitive literal matcher (`re.IGNORECASE`). -/
def litMatchCI (lit : Str) : Matcher :=
  fun s =>
    if isPre (lit.map Char.toLower) (s.map Char.toLower) then some lit.length
    else none

/-- The characters `re.escape` prefixes with a backslash. -/
def reSpecialChars : Str :=
  ['(', ')', '[', ']', '\x7b', '\x7d', '?', '*', '+', '-', '|', '^', '$',
   '\\', '.', '&', '~', '#', ' ', '\t', '\n', '\r', '\x0b', '\x0c']

/-- Model of `re.escape`: backslash-escape every regex metacharacter. -/
def reEscape (s : Str) : Str :=
  s.foldr (fun c acc => if c ∈ reSpecialChars then '\\' :: c :: acc else c :: acc) []

/-- The `pattern` constructor argument: a literal string, a pre-compiled
pattern (source string plus semantics), or a value of any other type. -/
inductive PatternArg where
  | pstr : Str → PatternArg
  | pcompiled : Str → Matcher → PatternArg
  | pother : PatternArg

/-- The `replacement` constructor argument: a literal string, a callable,
or a value of any other type. -/
inductive ReplacementArg where
  | rstr : Str → ReplacementArg
  | rcallable : (Str → Except Unit Str) → ReplacementArg
  | rother : ReplacementArg

def PatternArg.isOther : PatternArg → Bool
  | .pother => true
  | _ => false

def ReplacementArg.isOther : ReplacementArg → Bool
  | .rother => true
  | _ => false

/-- `OnPattern.__post_init__`: compile a literal string matcher (escaped,
honouring `ignore_case`), accept a pre-compiled pattern as-is, reject any
other matcher type; then reject a replacement that is neither a string nor
callable.  A string replacement resolves verbatim, ignoring the match. -/
def postInit (pa : PatternArg) (ra : ReplacementArg) (ignoreCase : Bool)
    (maxRepl : Int) : Except Unit OnPattern :=
  match pa with
  | .pother => .error ()
  | .pstr s =>
    match ra with
    | .rother => .error ()
    | .rstr r =>
      .ok ⟨reEscape s, if ignoreCase then litMatchCI s else litMatch s,
           fun _ => .ok r, maxRepl⟩
    | .rcallable f =>
      .ok ⟨reEscape s, if ignoreCase then litMatchCI s else litMatch s, f, maxRepl⟩
  | .pcompiled src m =>
    match ra with
    | .rother => .error ()
    | .rstr r => .ok ⟨src, m, fun _ => .ok r, maxRepl⟩
    | .rcallable f => .ok ⟨src, m, f, maxRepl⟩

def MAX_BUFFER_SIZE : Nat := 10240
def DEFAULT_SAFETY_MARGIN : Nat := 50
def MIN_BUFFER_SIZE : Nat := 50

/-- `_calculate_buffer_threshold`: buffer retention size from pattern source
string lengths. -/
def calculateBufferThreshold (ps : List OnPattern) (maxB : Nat) : Nat :=
  if ps.isEmpty then MIN_BUFFER_SIZE
  else
    min ((ps.foldl (fun acc p => max acc p.patternStr.length) MIN_BUFFER_SIZE)
          + DEFAULT_SAFETY_MARGIN)
        (maxB / 2)

/-- The mutable state of a `StreamingResponseHandler`. -/
structure Handler where
  patterns : List OnPattern
  maxBufferSize : Nat
  buffer : Str
  bufferThreshold : Nat
  stats : Stats

/-- `StreamingResponseHandler.__init__`. -/
def mkHandler (ps : List OnPattern) (maxB : Nat) : Handler :=
  { patterns := ps, maxBufferSize := maxB, buffer := [],
    bufferThreshold := calculateBufferThreshold ps maxB, stats := stats0 }

/-- Non-overlapping left-to-right match enumeration (`re.finditer`), returning
absolute `(start, end)` offsets; `pos` is the absolute offset of `s`.  The
scan consumes at least one character per step, so it is written by structural
recursion on a fuel that any value above the text length makes irrelevant. -/
def scanAux (m : Matcher) : Nat → Str → Nat → List (Nat × Nat)
  | 0, _, _ => []
  | _ + 1, [], pos =>
    match m [] with
    | some n => [(pos, pos + n)]
    | none => []
  | fuel + 1, s@(_ :: rest), pos =>
    match m s with
    | none => scanAux m fuel rest (pos + 1)
    | some 0 => (pos, pos) :: scanAux m fuel rest (pos + 1)
    | some (n + 1) => (pos, pos + n + 1) :: scanAux m fuel (s.drop (n + 1)) (pos + n + 1)

/-- `re.finditer` over a whole text. -/
def scanMatches (m : Matcher) (s : Str) : List (Nat × Nat) :=
  scanAux m (s.length + 1) s 0

/-- The per-match fix of `_find_safe_boundary`: for every full match in
enumeration order, if it straddles the running boundary, pull the boundary
back to the match start. -/
def straddleFix (ms : List (Nat × Nat)) (b : Int) : Int :=
  ms.foldl
    (fun bb me => if (me.1 : Int) < bb ∧ bb < (me.2 : Int) then (me.1 : Int) else bb) b

/-- The scan loop of `_adjust_for_partial_pattern`: try an anchored match at
every suffix of the search region (`absPos` is the region offset in the
buffer); return the first absolute match start whose span strictly contains
the boundary. -/
def firstStraddleAux (m : Matcher) : Str → Nat → Int → Option Nat
  | [], _, _ => none
  | s@(_ :: rest), absPos, boundary =>
    match m s with
    | some n =>
      if (absPos : Int) < boundary ∧ boundary < (absPos : Int) + n then some absPos
      else firstStraddleAux m rest (absPos + 1) boundary
    | none => firstStraddleAux m rest (absPos + 1) boundary

/-- `_adjust_for_partial_pattern`: move the boundary back to the start of a
match that begins strictly before it and ends strictly after it, searching a
window of about twice the threshold around the boundary. -/
def adjustForPartialPattern (h : Handler) (boundary : Int) (m : Matcher) : Int :=
  if boundary ≤ 0 ∨ (h.buffer.length : Int) ≤ boundary then boundary
  else
    let searchStart : Nat := (boundary - (h.bufferThreshold : Int)).toNat
    let region : Str :=
      (h.buffer.drop searchStart).take ((boundary + h.bufferThreshold).toNat - searchStart)
    match firstStraddleAux m region searchStart boundary with
    | some s => (s : Int)
    | none => boundary

/-- `_find_safe_boundary`: largest prefix length safe to emit. -/
def findSafeBoundary (h : Handler) : Nat :=
  let bl : Nat := h.buffer.length
  if bl < h.bufferThreshold ∧ bl < h.maxBufferSize then 0
  else
    let sb : Int := (bl : Int) - h.bufferThreshold
    if (h.maxBufferSize : Int) < (bl : Int) then (max 0 sb).toNat
    else
      (max 0 (h.patterns.foldl
        (fun b p =>
          adjustForPartialPattern h (straddleFix (scanMatches p.matchLen h.buffer) b)
            p.matchLen)
        sb)).toNat

/-- The `replace_func` closure of `_apply_single_pattern`: skip when the
replacement budget is spent; otherwise resolve the replacement, counting a
success in `patterns_applied` and absorbing a failure into `errors` while
substituting the original matched text back. -/
def replaceFunc (p : OnPattern) (matched : Str) (made : Nat) (st : Stats) :
    Str × Nat × Stats :=
  if 0 ≤ p.maxReplacements ∧ p.maxReplacements ≤ (made : Int) then (matched, made, st)
  else
    match p.repl matched with
    | .ok r => (r, made + 1, { st with applied := st.applied + 1 })
    | .error _ => (matched, made, { st with errors := st.errors + 1 })

/-- `pattern.sub(replace_func, text)`: the non-overlapping left-to-right
substitution scan threading the `replacements_made` counter and the stats;
fuel-structural for the same reason as `scanAux`. -/
def applySingleAux (p : OnPattern) : Nat → Str → Nat → Stats → Str × Stats
  | 0, s, _, st => (s, st)
  | _ + 1, [], made, st =>
    match p.matchLen [] with
    | some _ =>
      let r := replaceFunc p [] made st
      (r.1, r.2.2)
    | none => ([], st)
  | fuel + 1, s@(c :: rest), made, st =>
    match p.matchLen s with
    | none =>
      let r := applySingleAux p fuel rest made st
      (c :: r.1, r.2)
    | some 0 =>
      let r := replaceFunc p [] made st
      let r2 := applySingleAux p fuel rest r.2.1 r.2.2
      (r.1 ++ c :: r2.1, r2.2)
    | some (n + 1) =>
      let r := replaceFunc p (s.take (n + 1)) made st
      let r2 := applySingleAux p fuel (s.drop (n + 1)) r.2.1 r.2.2
      (r.1 ++ r2.1, r2.2)

/-- `_apply_single_pattern`: the replacement counter starts at zero on every
call. -/
def applySinglePattern (p : OnPattern) (t : Str) (st : Stats) : Str × Stats :=
  applySingleAux p (t.length + 1) t 0 st

/-- `_apply_patterns`: apply the handlers sequentially. -/
def applyPatterns (ps : List OnPattern) (t : Str) (st : Stats) : Str × Stats :=
  ps.foldl (fun acc p => applySinglePattern p acc.1 acc.2) (t, st)

/-- `transform_chunk`. -/
def transformChunk (h : Handler) (c : Str) : Str × Handler :=
  if c.isEmpty then ([], h)
  else
    let h1 : Handler :=
      { h with buffer := h.buffer ++ c,
               stats := { h.stats with chunks := h.stats.chunks + 1 } }
    let sb := findSafeBoundary h1
    if sb = 0 then ([], h1)
    else
      let toProcess := h1.buffer.take sb
      let h2 : Handler := { h1 with buffer := h1.buffer.drop sb }
      let r := applyPatterns h2.patterns toProcess h2.stats
      (r.1, { h2 with stats := r.2 })

/-- `flush`. -/
def flush (h : Handler) : Str × Handler :=
  if h.buffer.isEmpty then ([], h)
  else
    let r := applyPatterns h.patterns h.buffer h.stats
    (r.1, { h with buffer := [], stats := r.2 })

/-- Feed a list of chunks in order, concatenating the emitted outputs. -/
def feedChunks (h : Handler) : List Str → Str × Handler
  | [] => ([], h)
  | c :: cs =>
    let r := transformChunk h c
    let r2 := feedChunks r.2 cs
    (r.1 ++ r2.1, r2.2)

/-- A whole streamed response: construct a handler, feed the chunks, flush
once, and concatenate everything emitted. -/
def runStream (ps : List OnPattern) (maxB : Nat) (chunks : List Str) : Str :=
  let r := feedChunks (mkHandler ps maxB) chunks
  r.1 ++ (flush r.2).1

/-! ### Reference definitions used to state the claims -/

/-- Number of non-overlapping matches found by the left-to-right scan
(fuel-structural companion of `scanAux`). -/
def countAux (m : Matcher) : Nat → Str → Nat
  | 0, _ => 0
  | _ + 1, [] =>
    match m [] with
    | some _ => 1
    | none => 0
  | fuel + 1, s@(_ :: rest) =>
    match m s with
    | none => countAux m fuel rest
    | some 0 => 1 + countAux m fuel rest
    | some (n + 1) => 1 + countAux m fuel (s.drop (n + 1))

/-- Number of non-overlapping matches of `m` in a text. -/
def countMatches (m : Matcher) (s : Str) : Nat :=
  countAux m (s.length + 1) s

/-- Number of scan-order matches whose replacement resolves successfully,
ignoring any replacement budget. -/
def countOkAux (m : Matcher) (r : Str → Except Unit Str) : Nat → Str → Nat
  | 0, _ => 0
  | _ + 1, [] =>
    match m [] with
    | some _ =>
      match r [] with
      | .ok _ => 1
      | .error _ => 0
    | none => 0
  | fuel + 1, s@(_ :: rest) =>
    match m s with
    | none => countOkAux m r fuel rest
    | some 0 =>
      (match r [] with
       | .ok _ => 1
       | .error _ => 0) + countOkAux m r fuel rest
    | some (n + 1) =>
      (match r (s.take (n + 1)) with
       | .ok _ => 1
       | .error _ => 0) + countOkAux m r fuel (s.drop (n + 1))

def countOk (m : Matcher) (r : Str → Except Unit Str) (s : Str) : Nat :=
  countOkAux m r (s.length + 1) s

/-- Number of scan-order matches whose replacement fails, counted only while
the success budget `b` is not yet exhausted (a successful replacement
consumes one unit of budget; once it reaches zero no further replacement is
attempted, so later failures are not counted). -/
def countErrAux (m : Matcher) (r : Str → Except Unit Str) : Nat → Nat → Str → Nat
  | 0, _, _ => 0
  | _ + 1, 0, _ => 0
  | _ + 1, _ + 1, [] =>
    match m [] with
    | some _ =>
      match r [] with
      | .ok _ => 0
      | .error _ => 1
    | none => 0
  | fuel + 1, b + 1, s@(_ :: rest) =>
    match m s with
    | none => countErrAux m r fuel (b + 1) rest
    | some 0 =>
      match r [] with
      | .ok _ => countErrAux m r fuel b rest
      | .error _ => 1 + countErrAux m r fuel (b + 1) rest
    | some (n + 1) =>
      match r (s.take (n + 1)) with
      | .ok _ => countErrAux m r fuel b (s.drop (n + 1))
      | .error _ => 1 + countErrAux m r fuel (b + 1) (s.drop (n + 1))

def countErrWithin (m : Matcher) (r : Str → Except Unit Str) (b : Nat) (s : Str) : Nat :=
  countErrAux m r (s.length + 1) b s

/-- Modelled from the spec: replace the first `b` scan-order matches of `m`
with `f` applied to the matched text, and leave every later match (and all
unmatched text) exactly as in the original. -/
def specRepAux (m : Matcher) (f : Str → Str) : Nat → Nat → Str → Str
  | 0, _, s => s
  | _ + 1, b, [] =>
    match m [] with
    | some _ => if b = 0 then [] else f []
    | none => []
  | fuel + 1, b, s@(c :: rest) =>
    match m s with
    | none => c :: specRepAux m f fuel b rest
    | some 0 =>
      if b = 0 then c :: specRepAux m f fuel 0 rest
      else f [] ++ c :: specRepAux m f fuel (b - 1) rest
    | some (n + 1) =>
      if b = 0 then s.take (n + 1) ++ specRepAux m f fuel 0 (s.drop (n + 1))
      else f (s.take (n + 1)) ++ specRepAux m f fuel (b - 1) (s.drop (n + 1))

/-- Modelled from the spec: "exactly `k` are replaced and `n-k` are left as
original text" — the first `b` matches replaced, the rest untouched. -/
def specReplaceFirst (m : Matcher) (f : Str → Str) (b : Nat) (s : Str) : Str :=
  specRepAux m f (s.length + 1) b s

/-- Modelled from the spec (amended): with no patterns the threshold is the
fixed minimum 50; otherwise it is `min(max(50, L) + 50, max_buffer_size / 2)`
where `L` is the length of the longest compiled pattern source string. -/
def amendedThreshold (ps : List OnPattern) (maxB : Nat) : Nat :=
  if ps.isEmpty then MIN_BUFFER_SIZE
  else
    min (max MIN_BUFFER_SIZE ((ps.map fun p => p.patternStr.length).foldr max 0)
          + DEFAULT_SAFETY_MARGIN)
        (maxB / 2)

/-- The claim's stated threshold formula: `clamp(L + 50, lower := 50,
upper := max_buffer_size / 2)` with `L` the longest literal length. -/
def claimedThreshold (literalLen : Nat) (maxB : Nat) : Nat :=
  min (max (literalLen + DEFAULT_SAFETY_MARGIN) MIN_BUFFER_SIZE) (maxB / 2)

/-! ### Concrete patterns and texts used in scenarios, counterexamples and
witnesses -/

/-- The literal `"<PHONE>"`. -/
def phoneLit : Str := ['<', 'P', 'H', 'O', 'N', 'E', '>']

/-- `Pattern("<PHONE>", "555-1234")`. -/
def phonePattern : OnPattern :=
  ⟨reEscape phoneLit, litMatch phoneLit,
   fun _ => .ok ['5', '5', '5', '-', '1', '2', '3', '4'], -1⟩

/-- `"Call <PHONE> now!"`. -/
def phoneText : Str :=
  ['C', 'a', 'l', 'l', ' '] ++ phoneLit ++ [' ', 'n', 'o', 'w', '!']

/-- Literal pattern `"aa" -> "X"`, unbounded replacements. -/
def aaPattern : OnPattern :=
  ⟨reEscape ['a', 'a'], litMatch ['a', 'a'], fun _ => .ok ['X'], -1⟩

/-- `"aaa" ++ "c" * 5`: an overlapping-occurrence text for the single-call
counterexample. -/
def exTextC2 : Str := ['a', 'a', 'a'] ++ List.replicate 5 'c'

/-- `"aaa" ++ "c" * 27`: an overlapping-occurrence text for the chunk-split
counterexample. -/
def exTextC1 : Str := ['a', 'a', 'a'] ++ List.replicate 27 'c'

/-! ### Stats bookkeeping lemmas -/

@[simp]
theorem Stats.add_chunks (a b : Stats) : (a.add b).chunks = a.chunks + b.chunks := rfl

@[simp]
theorem Stats.add_applied (a b : Stats) : (a.add b).applied = a.applied + b.applied := rfl

@[simp]
theorem Stats.add_errors (a b : Stats) : (a.add b).errors = a.errors + b.errors := rfl

theorem Stats.ext_iff' (a b : Stats) :
    a = b ↔ a.chunks = b.chunks ∧ a.applied = b.applied ∧ a.errors = b.errors := by
  cases a
  cases b
  simp_all

@[simp]
theorem Stats.add_stats0 (st : Stats) : st.add stats0 = st := by
  simp [Stats.ext_iff', stats0]

@[simp]
theorem Stats.stats0_add (st : Stats) : stats0.add st = st := by
  simp [Stats.ext_iff', stats0]

theorem Stats.add_assoc (a b c : Stats) : (a.add b).add c = a.add (b.add c) := by
  simp [Stats.ext_iff', Nat.add_assoc]

theorem replaceFunc_fst (p : OnPattern) (matched : Str) (made : Nat) (st : Stats) :
    (replaceFunc p matched made st).1 = (replaceFunc p matched made stats0).1 := by
  unfold replaceFunc
  split
  · rfl
  · cases p.repl matched <;> rfl

theorem replaceFunc_made (p : OnPattern) (matched : Str) (made : Nat) (st : Stats) :
    (replaceFunc p matched made st).2.1 = (replaceFunc p matched made stats0).2.1 := by
  unfold replaceFunc
  split
  · rfl
  · cases p.repl matched <;> rfl

theorem replaceFunc_stats (p : OnPattern) (matched : Str) (made : Nat) (st : Stats) :
    (replaceFunc p matched made st).2.2 = st.add (replaceFunc p matched made stats0).2.2 := by
  unfold replaceFunc
  split
  · simp
  · cases p.repl matched <;> simp [Stats.ext_iff', stats0]

/-- The text produced and the stats delta of a single-pattern substitution
do not depend on the incoming stats: the stats are only ever added to. -/
theorem applySingleAux_factor (p : OnPattern) (fuel : Nat) :
    ∀ (s : Str) (made : Nat) (st : Stats),
      (applySingleAux p fuel s made st).1 = (applySingleAux p fuel s made stats0).1
      ∧ (applySingleAux p fuel s made st).2
          = st.add (applySingleAux p fuel s made stats0).2 := by
  induction fuel with
  | zero => intro s made st; simp [applySingleAux]
  | succ fuel ih =>
    intro s made st
    cases s with
    | nil =>
      cases hm : p.matchLen [] with
      | none => simp [applySingleAux, hm]
      | some n =>
        simp only [applySingleAux, hm]
        exact ⟨replaceFunc_fst .., replaceFunc_stats ..⟩
    | cons c rest =>
      cases hm : p.matchLen (c :: rest) with
      | none =>
        simp only [applySingleAux, hm]
        exact ⟨by rw [(ih rest made st).1], by rw [(ih rest made st).2]⟩
      | some n =>
        cases n with
        | zero =>
          simp only [applySingleAux, hm]
          rw [replaceFunc_fst, replaceFunc_made, replaceFunc_stats]
          constructor
          · rw [(ih rest (replaceFunc p [] made stats0).2.1
                (st.add (replaceFunc p [] made stats0).2.2)).1,
              (ih rest (replaceFunc p [] made stats0).2.1
                (replaceFunc p [] made stats0).2.2).1]
          · rw [(ih rest (replaceFunc p [] made stats0).2.1
                (st.add (replaceFunc p [] made stats0).2.2)).2,
              (ih rest (replaceFunc p [] made stats0).2.1
                (replaceFunc p [] made stats0).2.2).2,
              Stats.add_assoc]
        | succ n =>
          simp only [applySingleAux, hm]
          rw [replaceFunc_fst, replaceFunc_made, replaceFunc_stats]
          constructor
          · rw [(ih ((c :: rest).drop (n + 1))
                (replaceFunc p ((c :: rest).take (n + 1)) made stats0).2.1
                (st.add (replaceFunc p ((c :: rest).take (n + 1)) made stats0).2.2)).1,
              (ih ((c :: rest).drop (n + 1))
                (replaceFunc p ((c :: rest).take (n + 1)) made stats0).2.1
                (replaceFunc p ((c :: rest).take (n + 1)) made stats0).2.2).1]
          · rw [(ih ((c :: rest).drop (n + 1))
                (replaceFunc p ((c :: rest).take (n + 1)) made stats0).2.1
                (st.add (replaceFunc p ((c :: rest).take (n + 1)) made stats0).2.2)).2,
              (ih ((c :: rest).drop (n + 1))
                (replaceFunc p ((c :: rest).take (n + 1)) made stats0).2.1
                (replaceFunc p ((c :: rest).take (n + 1)) made stats0).2.2).2,
              Stats.add_assoc]

theorem applySinglePattern_factor (p : OnPattern) (t : Str) (st : Stats) :
    (applySinglePattern p t st).1 = (applySinglePattern p t stats0).1
    ∧ (applySinglePattern p t st).2 = st.add (applySinglePattern p t stats0).2 :=
  applySingleAux_factor p (t.length + 1) t 0 st

/-- Same factorization for the sequential application of a pattern list. -/
theorem applyPatterns_factor (ps : List OnPattern) :
    ∀ (t : Str) (st : Stats),
      (applyPatterns ps t st).1 = (applyPatterns ps t stats0).1
      ∧ (applyPatterns ps t st).2 = st.add (applyPatterns ps t stats0).2 := by
  induction ps with
  | nil => intro t st; simp [applyPatterns]
  | cons p ps ih =>
    intro t st
    have hstep : applyPatterns (p :: ps) t st
        = applyPatterns ps (applySinglePattern p t st).1 (applySinglePattern p t st).2 := rfl
    have hstep0 : applyPatterns (p :: ps) t stats0
        = applyPatterns ps (applySinglePattern p t stats0).1 (applySinglePattern p t stats0).2 := rfl
    rw [hstep, hstep0, (applySinglePattern_factor p t st).1,
      (applySinglePattern_factor p t st).2]
    constructor
    · rw [(ih (applySinglePattern p t stats0).1
          (st.add (applySinglePattern p t stats0).2)).1,
        (ih (applySinglePattern p t stats0).1 (applySinglePattern p t stats0).2).1]
    · rw [(ih (applySinglePattern p t stats0).1
          (st.add (applySinglePattern p t stats0).2)).2,
        (ih (applySinglePattern p t stats0).1 (applySinglePattern p t stats0).2).2,
        Stats.add_assoc]

/-- `_apply_patterns` over a concatenation of pattern lists is sequential
composition. -/
theorem applyPatterns_append (ps1 ps2 : List OnPattern) (t : Str) (st : Stats) :
    applyPatterns (ps1 ++ ps2) t st
      = applyPatterns ps2 (applyPatterns ps1 t st).1 (applyPatterns ps1 t st).2 := by
  unfold applyPatterns
  rw [List.foldl_append]

/-! ### Behaviour of a pattern whose replacement always raises -/

/-- With an always-raising replacement and a nonzero cap, every match is
attempted, fails, is substituted back unchanged, and counts one error. -/
theorem applySingleAux_allFail (src : Str) (m : Matcher) (k : Int) (hk : k ≠ 0)
    (fuel : Nat) :
    ∀ (s : Str) (st : Stats),
      applySingleAux ⟨src, m, fun _ => .error (), k⟩ fuel s 0 st
        = (s, { st with errors := st.errors + countAux m fuel s }) := by
  induction fuel with
  | zero => intro s st; simp [applySingleAux, countAux]
  | succ fuel ih =>
    intro s st
    have hcap : ¬(0 ≤ k ∧ k ≤ ((0 : Nat) : Int)) := by omega
    cases s with
    | nil =>
      cases hm : m [] with
      | none => simp [applySingleAux, hm, countAux]
      | some n =>
        simp only [applySingleAux, hm, countAux, replaceFunc, if_neg hcap]
    | cons c rest =>
      cases hm : m (c :: rest) with
      | none =>
        simp only [applySingleAux, hm, countAux]
        rw [ih rest st]
      | some n =>
        cases n with
        | zero =>
          simp only [applySingleAux, hm, countAux, replaceFunc, if_neg hcap]
          rw [ih rest]
          simp [Stats.ext_iff']
          omega
        | succ n =>
          simp only [applySingleAux, hm, countAux, replaceFunc, if_neg hcap]
          rw [ih ((c :: rest).drop (n + 1))]
          simp [Stats.ext_iff', List.take_append_drop]
          omega

/-! ### Budgeted substitution with a pure replacement (claim C5) -/

/-- With a never-failing replacement and a nonnegative cap, the substitution
scan replaces exactly the first `cap - made` matches and counts only those in
`patterns_applied`. -/
theorem applySingleAux_pure (src : Str) (m : Matcher) (f : Str → Str) (k : Int)
    (hk : 0 ≤ k) (fuel : Nat) :
    ∀ (s : Str) (made : Nat) (st : Stats),
      applySingleAux ⟨src, m, fun x => .ok (f x), k⟩ fuel s made st
        = (specRepAux m f fuel (k.toNat - made) s,
           { st with applied := st.applied + min (k.toNat - made) (countAux m fuel s) }) := by
  induction fuel with
  | zero =>
    intro s made st
    simp [applySingleAux, specRepAux, countAux]
  | succ fuel ih =>
    intro s made st
    rcases Nat.eq_zero_or_pos (k.toNat - made) with hb | hb
    · have hcap : 0 ≤ k ∧ k ≤ (made : Int) := by omega
      cases s with
      | nil =>
        cases hm : m [] with
        | none => simp [applySingleAux, hm, specRepAux, countAux]
        | some n =>
          simp only [applySingleAux, hm, replaceFunc, if_pos hcap]
          simp [specRepAux, countAux, hm, hb]
      | cons c rest =>
        cases hm : m (c :: rest) with
        | none =>
          simp only [applySingleAux, hm]
          rw [ih rest made st]
          simp [specRepAux, countAux, hm]
        | some n =>
          cases n with
          | zero =>
            simp only [applySingleAux, hm, replaceFunc, if_pos hcap]
            rw [ih rest made st]
            simp [specRepAux, countAux, hm, hb]
          | succ n =>
            simp only [applySingleAux, hm, replaceFunc, if_pos hcap]
            rw [ih ((c :: rest).drop (n + 1)) made st]
            simp [specRepAux, countAux, hm, hb]
    · have hcap : ¬(0 ≤ k ∧ k ≤ (made : Int)) := by omega
      have hb' : k.toNat - made ≠ 0 := by omega
      cases s with
      | nil =>
        cases hm : m [] with
        | none => simp [applySingleAux, hm, specRepAux, countAux]
        | some n =>
          simp only [applySingleAux, hm, replaceFunc, if_neg hcap]
          simp only [specRepAux, countAux, hm, if_neg hb']
          simp [Stats.ext_iff']
          omega
      | cons c rest =>
        cases hm : m (c :: rest) with
        | none =>
          simp only [applySingleAux, hm]
          rw [ih rest made st]
          simp [specRepAux, countAux, hm]
        | some n =>
          cases n with
          | zero =>
            simp only [applySingleAux, hm, replaceFunc, if_neg hcap]
            rw [ih rest (made + 1) { st with applied := st.applied + 1 }]
            simp only [specRepAux, countAux, hm, if_neg hb']
            have hsub : k.toNat - (made + 1) = k.toNat - made - 1 := by omega
            rw [hsub]
            simp [Stats.ext_iff']
            omega
          | succ n =>
            simp only [applySingleAux, hm, replaceFunc, if_neg hcap]
            rw [ih ((c :: rest).drop (n + 1)) (made + 1) { st with applied := st.applied + 1 }]
            simp only [specRepAux, countAux, hm, if_neg hb']
            have hsub : k.toNat - (made + 1) = k.toNat - made - 1 := by omega
            rw [hsub]
            simp [Stats.ext_iff']
            omega

/-! ### Counter behaviour with a fallible replacement (claim C9) -/

/-- Once the budget is exhausted no further attempt is made, so no error is
counted. -/
theorem countErrAux_zero (m : Matcher) (r : Str → Except Unit Str) :
    ∀ (fuel : Nat) (s : Str), countErrAux m r fuel 0 s = 0 := by
  intro fuel s
  cases fuel with
  | zero => rfl
  | succ fuel => cases s <;> rfl

/-- With a nonnegative cap, failed replacement attempts do not consume the
budget: the number of successful substitutions is the minimum of the cap and
the number of budget-free successful matches, and errors count exactly the
failing attempts made while budget remained. -/
theorem applySingleAux_counters (src : Str) (m : Matcher) (r : Str → Except Unit Str)
    (k : Int) (hk : 0 ≤ k) (fuel : Nat) :
    ∀ (s : Str) (made : Nat) (st : Stats),
      (applySingleAux ⟨src, m, r, k⟩ fuel s made st).2
        = { st with
            applied := st.applied + min (k.toNat - made) (countOkAux m r fuel s),
            errors := st.errors + countErrAux m r fuel (k.toNat - made) s } := by
  induction fuel with
  | zero =>
    intro s made st
    simp [applySingleAux, countOkAux, countErrAux]
  | succ fuel ih =>
    intro s made st
    rcases Nat.eq_zero_or_pos (k.toNat - made) with hb | hb
    · have hcap : 0 ≤ k ∧ k ≤ (made : Int) := by omega
      cases s with
      | nil =>
        cases hm : m [] with
        | none => simp [applySingleAux, hm, countOkAux, countErrAux, hb]
        | some n =>
          simp only [applySingleAux, hm, replaceFunc, if_pos hcap]
          simp [countOkAux, countErrAux, hm, hb]
      | cons c rest =>
        cases hm : m (c :: rest) with
        | none =>
          simp only [applySingleAux, hm]
          rw [ih rest made st]
          simp [countOkAux, countErrAux, countErrAux_zero, hm, hb]
        | some n =>
          cases n with
          | zero =>
            simp only [applySingleAux, hm, replaceFunc, if_pos hcap]
            rw [ih rest made st]
            simp [countOkAux, countErrAux, countErrAux_zero, hm, hb]
          | succ n =>
            simp only [applySingleAux, hm, replaceFunc, if_pos hcap]
            rw [ih ((c :: rest).drop (n + 1)) made st]
            simp [countOkAux, countErrAux, countErrAux_zero, hm, hb]
    · have hcap : ¬(0 ≤ k ∧ k ≤ (made : Int)) := by omega
      obtain ⟨b, hbeq⟩ : ∃ b, k.toNat - made = b + 1 := ⟨k.toNat - made - 1, by omega⟩
      cases s with
      | nil =>
        cases hm : m [] with
        | none => simp [applySingleAux, hm, countOkAux, countErrAux, hbeq]
        | some n =>
          simp only [applySingleAux, hm, replaceFunc, if_neg hcap]
          cases hr : r [] with
          | ok v =>
            simp [countOkAux, countErrAux, hm, hr, hbeq, Stats.ext_iff']
          | error e =>
            simp [countOkAux, countErrAux, hm, hr, hbeq, Stats.ext_iff']
      | cons c rest =>
        cases hm : m (c :: rest) with
        | none =>
          simp only [applySingleAux, hm]
          rw [ih rest made st]
          simp [countOkAux, countErrAux, hm, hbeq]
        | some n =>
          cases n with
          | zero =>
            simp only [applySingleAux, hm, replaceFunc, if_neg hcap]
            cases hr : r [] with
            | ok v =>
              simp only [hr]
              rw [ih rest (made + 1) { st with applied := st.applied + 1 }]
              have hsub : k.toNat - (made + 1) = b := by omega
              simp [countOkAux, countErrAux, hm, hr, hbeq, hsub, Stats.ext_iff']
              omega
            | error e =>
              simp only [hr]
              rw [ih rest made { st with errors := st.errors + 1 }]
              simp [countOkAux, countErrAux, hm, hr, hbeq, Stats.ext_iff']
              omega
          | succ n =>
            simp only [applySingleAux, hm, replaceFunc, if_neg hcap]
            cases hr : r ((c :: rest).take (n + 1)) with
            | ok v =>
              rw [List.take_succ_cons] at hr
              simp only [List.take_succ_cons, hr]
              rw [ih ((c :: rest).drop (n + 1)) (made + 1)
                { st with applied := st.applied + 1 }]
              have hsub : k.toNat - (made + 1) = b := by omega
              simp [countOkAux, countErrAux, hm, hr, hbeq, hsub, Stats.ext_iff']
              omega
            | error e =>
              rw [List.take_succ_cons] at hr
              simp only [List.take_succ_cons, hr]
              rw [ih ((c :: rest).drop (n + 1)) made { st with errors := st.errors + 1 }]
              simp [countOkAux, countErrAux, hm, hr, hbeq, Stats.ext_iff']
              omega

/-! ### Boundary lemmas -/

/-- The full-match straddle fix never moves the boundary later. -/
theorem straddleFix_le (ms : List (Nat × Nat)) : ∀ b : Int, straddleFix ms b ≤ b := by
  induction ms with
  | nil => intro b; simp [straddleFix]
  | cons me ms ih =>
    intro b
    have hstep : straddleFix (me :: ms) b
        = straddleFix ms (if (me.1 : Int) < b ∧ b < (me.2 : Int) then (me.1 : Int) else b) := rfl
    rw [hstep]
    split
    · exact le_trans (ih _) (by omega)
    · exact ih b

/-- A straddling match found by the adjustment scan starts strictly before
the boundary. -/
theorem firstStraddleAux_lt (m : Matcher) :
    ∀ (reg : Str) (pos : Nat) (b : Int) (s0 : Nat),
      firstStraddleAux m reg pos b = some s0 → (s0 : Int) < b := by
  intro reg
  induction reg with
  | nil => intro pos b s0 h; simp [firstStraddleAux] at h
  | cons c rest ih =>
    intro pos b s0 h
    cases hm : m (c :: rest) with
    | none =>
      simp only [firstStraddleAux, hm] at h
      exact ih _ _ _ h
    | some n =>
      simp only [firstStraddleAux, hm] at h
      by_cases hcond : (pos : Int) < b ∧ b < (pos : Int) + n
      · rw [if_pos hcond] at h
        simp only [Option.some.injEq] at h
        subst h
        exact hcond.1
      · rw [if_neg hcond] at h
        exact ih _ _ _ h

/-- The result of the adjustment match is never later than the boundary. -/
theorem matchStraddle_le (m : Matcher) (reg : Str) (pos : Nat) (b : Int) :
    (match firstStraddleAux m reg pos b with
     | some s => (s : Int)
     | none => b) ≤ b := by
  cases hf : firstStraddleAux m reg pos b with
  | none => simp
  | some s0 => simpa using le_of_lt (firstStraddleAux_lt m reg pos b s0 hf)

/-- The partial-pattern adjustment never moves the boundary later. -/
theorem adjustForPartialPattern_le (g : Handler) (b : Int) (m : Matcher) :
    adjustForPartialPattern g b m ≤ b := by
  unfold adjustForPartialPattern
  dsimp only
  split
  · exact le_refl b
  · exact matchStraddle_le m _ _ b

/-- The per-pattern boundary pass only ever moves the boundary earlier. -/
theorem boundaryFold_le (g : Handler) :
    ∀ (l : List OnPattern) (b : Int),
      l.foldl
        (fun bb p =>
          adjustForPartialPattern g (straddleFix (scanMatches p.matchLen g.buffer) bb)
            p.matchLen) b ≤ b := by
  intro l
  induction l with
  | nil => intro b; simp
  | cons p l ih =>
    intro b
    refine le_trans (ih _) ?_
    exact le_trans (adjustForPartialPattern_le g _ p.matchLen) (straddleFix_le _ b)

/-- `_find_safe_boundary` never exceeds `len(buffer) - buffer_threshold`. -/
theorem findSafeBoundary_le (g : Handler) :
    (findSafeBoundary g : Int) ≤ max 0 ((g.buffer.length : Int) - g.bufferThreshold) := by
  unfold findSafeBoundary
  dsimp only
  split
  · simp
  · split
    · omega
    · have h1 := boundaryFold_le g g.patterns ((g.buffer.length : Int) - g.bufferThreshold)
      omega

/-- A buffer no longer than the threshold yields boundary zero. -/
theorem findSafeBoundary_small (g : Handler)
    (hlen : g.buffer.length ≤ g.bufferThreshold) : findSafeBoundary g = 0 := by
  have h := findSafeBoundary_le g
  omega

/-- Over the hard cap (with a threshold below the cap), the boundary is
forced to exactly `len(buffer) - buffer_threshold`. -/
theorem findSafeBoundary_forced (g : Handler)
    (hthr : g.bufferThreshold ≤ g.maxBufferSize)
    (hov : g.maxBufferSize < g.buffer.length) :
    findSafeBoundary g = g.buffer.length - g.bufferThreshold := by
  unfold findSafeBoundary
  dsimp only
  split
  · omega
  · split
    · omega
    · omega

/-! ### transform_chunk lemmas -/

/-- `transform_chunk` only changes the buffer and the stats. -/
theorem transformChunk_fields (g : Handler) (c : Str) :
    (transformChunk g c).2.patterns = g.patterns
    ∧ (transformChunk g c).2.bufferThreshold = g.bufferThreshold
    ∧ (transformChunk g c).2.maxBufferSize = g.maxBufferSize := by
  unfold transformChunk
  dsimp only
  split
  · exact ⟨rfl, rfl, rfl⟩
  · split
    · exact ⟨rfl, rfl, rfl⟩
    · exact ⟨rfl, rfl, rfl⟩

/-- The post-call buffer: unchanged on an empty chunk, otherwise the appended
buffer with the safe prefix removed. -/
theorem transformChunk_buffer (g : Handler) (c : Str) :
    (transformChunk g c).2.buffer
      = if c.isEmpty then g.buffer
        else (g.buffer ++ c).drop (findSafeBoundary
          { g with buffer := g.buffer ++ c,
                   stats := { g.stats with chunks := g.stats.chunks + 1 } }) := by
  unfold transformChunk
  dsimp only
  split
  · rfl
  · split
    · next h0 => rw [h0, List.drop_zero]
    · rfl

/-- Feeding a chunk while the threshold is below the hard cap keeps the
buffer within the hard cap. -/
theorem transformChunk_bound (g : Handler) (c : Str)
    (hthr : g.bufferThreshold ≤ g.maxBufferSize)
    (hbuf : g.buffer.length ≤ g.maxBufferSize) :
    (transformChunk g c).2.buffer.length ≤ g.maxBufferSize := by
  rw [transformChunk_buffer]
  dsimp only
  split
  · exact hbuf
  · rw [List.length_drop]
    by_cases hov : (g.buffer ++ c).length ≤ g.maxBufferSize
    · omega
    · have hf := findSafeBoundary_forced
        { g with buffer := g.buffer ++ c,
                 stats := { g.stats with chunks := g.stats.chunks + 1 } }
        hthr (by simpa using Nat.lt_of_not_le hov)
      dsimp only at hf
      omega

/-- A chunk that keeps the whole buffer within the retention threshold emits
nothing and is wholly buffered. -/
theorem transformChunk_small (g : Handler) (c : Str)
    (hlen : (g.buffer ++ c).length ≤ g.bufferThreshold) :
    (transformChunk g c).1 = [] ∧ (transformChunk g c).2.buffer = g.buffer ++ c := by
  have hb : (transformChunk g c).2.buffer = g.buffer ++ c := by
    rw [transformChunk_buffer]
    split
    · next hc =>
      rw [List.isEmpty_iff] at hc
      simp [hc]
    · rw [findSafeBoundary_small _ (by simpa using hlen), List.drop_zero]
  refine ⟨?_, hb⟩
  unfold transformChunk
  dsimp only
  split
  · rfl
  · rw [findSafeBoundary_small _ (by simpa using hlen)]
    simp

/-! ### Never-matching patterns -/

theorem applySingleAux_nomatch (p : OnPattern) (hm : ∀ s, p.matchLen s = none) :
    ∀ (fuel : Nat) (s : Str) (made : Nat) (st : Stats),
      applySingleAux p fuel s made st = (s, st) := by
  intro fuel
  induction fuel with
  | zero => intro s made st; rfl
  | succ fuel ih =>
    intro s made st
    cases s with
    | nil => simp [applySingleAux, hm]
    | cons c rest => simp [applySingleAux, hm, ih]

theorem applyPatterns_nomatch (ps : List OnPattern)
    (hm : ∀ p ∈ ps, ∀ s, p.matchLen s = none) :
    ∀ (t : Str) (st : Stats), applyPatterns ps t st = (t, st) := by
  induction ps with
  | nil => intro t st; rfl
  | cons p ps ih =>
    intro t st
    have hstep : applyPatterns (p :: ps) t st
        = applyPatterns ps (applySinglePattern p t st).1 (applySinglePattern p t st).2 := rfl
    rw [hstep]
    rw [show applySinglePattern p t st = (t, st) from
      applySingleAux_nomatch p (hm p (List.mem_cons_self p ps)) _ t 0 st]
    exact ih (fun q hq s => hm q (List.mem_cons_of_mem p hq) s) t st

theorem scanAux_nomatch (m : Matcher) (hm : ∀ s, m s = none) :
    ∀ (fuel : Nat) (s : Str) (pos : Nat), scanAux m fuel s pos = [] := by
  intro fuel
  induction fuel with
  | zero => intro s pos; rfl
  | succ fuel ih =>
    intro s pos
    cases s with
    | nil => simp [scanAux, hm]
    | cons c rest => simp [scanAux, hm, ih]

theorem firstStraddleAux_nomatch (m : Matcher) (hm : ∀ s, m s = none) :
    ∀ (reg : Str) (pos : Nat) (b : Int), firstStraddleAux m reg pos b = none := by
  intro reg
  induction reg with
  | nil => intro pos b; rfl
  | cons c rest ih => intro pos b; simp [firstStraddleAux, hm, ih]

theorem adjustForPartialPattern_nomatch (g : Handler) (b : Int) (m : Matcher)
    (hm : ∀ s, m s = none) : adjustForPartialPattern g b m = b := by
  unfold adjustForPartialPattern
  dsimp only
  split
  · rfl
  · rw [firstStraddleAux_nomatch m hm]

/-- With never-matching patterns the boundary is the plain threshold
formula. -/
theorem findSafeBoundary_nomatch (g : Handler)
    (hm : ∀ p ∈ g.patterns, ∀ s, p.matchLen s = none) :
    findSafeBoundary g
      = if g.buffer.length < g.bufferThreshold ∧ g.buffer.length < g.maxBufferSize
        then 0 else g.buffer.length - g.bufferThreshold := by
  have hfold : ∀ (l : List OnPattern), (∀ p ∈ l, ∀ s, p.matchLen s = none) →
      ∀ b : Int,
        l.foldl
          (fun bb p =>
            adjustForPartialPattern g (straddleFix (scanMatches p.matchLen g.buffer) bb)
              p.matchLen) b = b := by
    intro l
    induction l with
    | nil => intro _ b; rfl
    | cons p l ih =>
      intro hl b
      have h1 : scanMatches p.matchLen g.buffer = [] :=
        scanAux_nomatch p.matchLen (hl p (List.mem_cons_self p l)) _ _ _
      have hstep : (p :: l).foldl
          (fun bb q =>
            adjustForPartialPattern g (straddleFix (scanMatches q.matchLen g.buffer) bb)
              q.matchLen) b
          = l.foldl
            (fun bb q =>
              adjustForPartialPattern g (straddleFix (scanMatches q.matchLen g.buffer) bb)
                q.matchLen)
            (adjustForPartialPattern g (straddleFix (scanMatches p.matchLen g.buffer) b)
              p.matchLen) := rfl
      rw [hstep, h1,
        show straddleFix [] b = b from rfl,
        adjustForPartialPattern_nomatch g b p.matchLen (hl p (List.mem_cons_self p l))]
      exact ih (fun q hq s => hl q (List.mem_cons_of_mem p hq) s) b
  unfold findSafeBoundary
  dsimp only
  split
  · rfl
  · split
    · omega
    · rw [hfold g.patterns hm]
      omega

/-! ### Feeding chunk sequences -/

theorem feedChunks_fields (cs : List Str) :
    ∀ (g : Handler),
      (feedChunks g cs).2.patterns = g.patterns
      ∧ (feedChunks g cs).2.bufferThreshold = g.bufferThreshold
      ∧ (feedChunks g cs).2.maxBufferSize = g.maxBufferSize := by
  induction cs with
  | nil => intro g; exact ⟨rfl, rfl, rfl⟩
  | cons c cs ih =>
    intro g
    have hstep : (feedChunks g (c :: cs)).2 = (feedChunks (transformChunk g c).2 cs).2 := rfl
    rw [hstep]
    obtain ⟨h1, h2, h3⟩ := ih (transformChunk g c).2
    obtain ⟨f1, f2, f3⟩ := transformChunk_fields g c
    exact ⟨h1.trans f1, h2.trans f2, h3.trans f3⟩

/-- The buffer-bound invariant is preserved along a whole feed. -/
theorem feedChunks_bound (cs : List Str) :
    ∀ (g : Handler), g.bufferThreshold ≤ g.maxBufferSize →
      g.buffer.length ≤ g.maxBufferSize →
      (feedChunks g cs).2.buffer.length ≤ g.maxBufferSize := by
  induction cs with
  | nil => intro g _ hbuf; exact hbuf
  | cons c cs ih =>
    intro g hthr hbuf
    have hstep : (feedChunks g (c :: cs)).2 = (feedChunks (transformChunk g c).2 cs).2 := rfl
    rw [hstep]
    obtain ⟨f1, f2, f3⟩ := transformChunk_fields g c
    have := ih (transformChunk g c).2 (by rw [f2, f3]; exact hthr)
      (by rw [f3]; exact transformChunk_bound g c hthr hbuf)
    rw [f3] at this
    exact this

/-- While everything fits under the threshold, a feed emits nothing and
accumulates the chunks verbatim. -/
theorem feedChunks_small (cs : List Str) :
    ∀ (g : Handler), (g.buffer ++ cs.flatten).length ≤ g.bufferThreshold →
      (feedChunks g cs).1 = []
      ∧ (feedChunks g cs).2.buffer = g.buffer ++ cs.flatten
      ∧ (feedChunks g cs).2.patterns = g.patterns := by
  induction cs with
  | nil => intro g _; simp [feedChunks]
  | cons c cs ih =>
    intro g hlen
    have hlen1 : (g.buffer ++ c).length ≤ g.bufferThreshold := by
      simp only [List.flatten_cons, List.length_append] at hlen ⊢
      omega
    obtain ⟨o1, b1⟩ := transformChunk_small g c hlen1
    obtain ⟨f1, f2, f3⟩ := transformChunk_fields g c
    have hlen2 : ((transformChunk g c).2.buffer ++ cs.flatten).length
        ≤ (transformChunk g c).2.bufferThreshold := by
      rw [b1, f2]
      simp only [List.flatten_cons, List.length_append] at hlen ⊢
      omega
    obtain ⟨ho, hb, hp⟩ := ih (transformChunk g c).2 hlen2
    refine ⟨?_, ?_, ?_⟩
    · have hstep : (feedChunks g (c :: cs)).1
          = (transformChunk g c).1 ++ (feedChunks (transformChunk g c).2 cs).1 := rfl
      rw [hstep, o1, ho]
      rfl
    · have hstep : (feedChunks g (c :: cs)).2 = (feedChunks (transformChunk g c).2 cs).2 := rfl
      rw [hstep, hb, b1, List.flatten_cons, List.append_assoc]
    · have hstep : (feedChunks g (c :: cs)).2 = (feedChunks (transformChunk g c).2 cs).2 := rfl
      rw [hstep, hp, f1]

/-- First component of `flush`. -/
theorem flush_fst (g : Handler) :
    (flush g).1
      = if g.buffer.isEmpty then []
        else (applyPatterns g.patterns g.buffer g.stats).1 := by
  unfold flush
  dsimp only
  split
  · rfl
  · rfl

/-- A stream whose whole text fits under the retention threshold emits only
at flush, where the full pattern pass runs on the whole text. -/
theorem runStream_small (ps : List OnPattern) (maxB : Nat) (chunks : List Str)
    (hlen : chunks.flatten.length ≤ calculateBufferThreshold ps maxB) :
    runStream ps maxB chunks
      = if chunks.flatten.isEmpty then []
        else (applyPatterns ps chunks.flatten stats0).1 := by
  unfold runStream
  dsimp only
  obtain ⟨ho, hb, hp⟩ := feedChunks_small chunks (mkHandler ps maxB)
    (by simpa [mkHandler] using hlen)
  rw [ho, flush_fst, hb, hp]
  simp only [mkHandler, List.nil_append]
  split
  · rfl
  · exact (applyPatterns_factor ps chunks.flatten _).1

/-- With never-matching patterns, a call that emits nothing only grows the
buffer. -/
theorem transformChunk_out_nomatch (g : Handler) (c : Str)
    (hm : ∀ p ∈ g.patterns, ∀ s, p.matchLen s = none)
    (hout : (transformChunk g c).1 = []) :
    (transformChunk g c).2.buffer = g.buffer ++ c := by
  by_cases hc : c.isEmpty
  · rw [transformChunk_buffer, if_pos hc]
    rw [List.isEmpty_iff] at hc
    simp [hc]
  · rw [transformChunk_buffer, if_neg hc]
    unfold transformChunk at hout
    dsimp only at hout
    rw [if_neg hc] at hout
    by_cases h0 : findSafeBoundary
        { g with buffer := g.buffer ++ c,
                 stats := { g.stats with chunks := g.stats.chunks + 1 } } = 0
    · rw [h0, List.drop_zero]
    · rw [if_neg h0] at hout
      dsimp only at hout
      rw [show applyPatterns g.patterns
            ((g.buffer ++ c).take (findSafeBoundary
              { g with buffer := g.buffer ++ c,
                       stats := { g.stats with chunks := g.stats.chunks + 1 } }))
            { g.stats with chunks := g.stats.chunks + 1 }
          = ((g.buffer ++ c).take (findSafeBoundary
              { g with buffer := g.buffer ++ c,
                       stats := { g.stats with chunks := g.stats.chunks + 1 } }),
             { g.stats with chunks := g.stats.chunks + 1 }) from
          applyPatterns_nomatch g.patterns hm _ _] at hout
      rw [List.take_eq_nil_iff] at hout
      rcases hout with hout | hout
      · exact absurd hout h0
      · rw [List.isEmpty_iff] at hc
        simp [List.append_eq_nil] at hout
        exact absurd hout.2 hc

/-- With never-matching patterns, a feed that emits nothing accumulates every
chunk in the buffer. -/
theorem feedChunks_nomatch_empty (cs : List Str) :
    ∀ (g : Handler), (∀ p ∈ g.patterns, ∀ s, p.matchLen s = none) →
      (feedChunks g cs).1 = [] →
      (feedChunks g cs).2.buffer = g.buffer ++ cs.flatten := by
  induction cs with
  | nil => intro g _ _; simp [feedChunks]
  | cons c cs ih =>
    intro g hm hout
    have hstep1 : (feedChunks g (c :: cs)).1
        = (transformChunk g c).1 ++ (feedChunks (transformChunk g c).2 cs).1 := rfl
    have hstep2 : (feedChunks g (c :: cs)).2 = (feedChunks (transformChunk g c).2 cs).2 := rfl
    rw [hstep1, List.append_eq_nil] at hout
    have hm' : ∀ p ∈ (transformChunk g c).2.patterns, ∀ s, p.matchLen s = none := by
      rw [(transformChunk_fields g c).1]
      exact hm
    rw [hstep2, ih (transformChunk g c).2 hm' hout.2,
      transformChunk_out_nomatch g c hm hout.1, List.flatten_cons, List.append_assoc]

/-! ### Small helpers for C3 and C8 -/

theorem isPre_append (s t : Str) : isPre s (s ++ t) = true := by
  induction s with
  | nil => rfl
  | cons a as ih => simp [isPre, ih]

def isOkB (e : Except Unit OnPattern) : Bool :=
  match e with
  | .ok _ => true
  | .error _ => false

theorem foldl_max_eq (l : List OnPattern) :
    ∀ a : Nat,
      l.foldl (fun acc p => max acc p.patternStr.length) a
        = max a ((l.map fun p => p.patternStr.length).foldr max 0) := by
  induction l with
  | nil => intro a; simp
  | cons p l ih =>
    intro a
    have hstep : (p :: l).foldl (fun acc q => max acc q.patternStr.length) a
        = l.foldl (fun acc q => max acc q.patternStr.length) (max a p.patternStr.length) := rfl
    rw [hstep, ih]
    simp only [List.map_cons, List.foldr_cons]
    omega

/-- A pattern whose matcher never matches anything. -/
def noneMatchPattern : OnPattern := ⟨['z'], fun _ => none, fun _ => .ok [], -1⟩

/-- A matcher that consumes a single `'a'` or `'b'`. -/
def mixMatcher : Matcher := fun s =>
  match s with
  | 'a' :: _ => some 1
  | 'b' :: _ => some 1
  | _ => none

/-- A replacement that succeeds on `"b"` and raises on anything else. -/
def mixRepl : Str → Except Unit Str := fun s =>
  if s = ['b'] then .ok ['Z'] else .error ()

/-! ### Claim theorems -/

/-- Claim C1, counterexample: with the single literal pattern `"aa" -> "X"`
(literal length 2, well below the threshold 20 of a handler with
`max_buffer_size = 40`), feeding `"aaa" + "c"*27` split as 22 + 8 characters
and flushing produces a different concatenated output than feeding it as a
single chunk: the partial-pattern adjustment pulls the boundary into the
middle of the committed non-overlapping match, splitting it only in the
single-chunk run. -/
theorem claimC1_counterexample :
    runStream [aaPattern] 40 [exTextC1.take 22, exTextC1.drop 22]
      ≠ runStream [aaPattern] 40 [exTextC1]
    ∧ aaPattern.patternStr.length ≤ calculateBufferThreshold [aaPattern] 40 := by
  constructor
  · decide
  · decide

/-- Claim C1 (amended): chunking invariance holds for any pattern list and
any splitting whenever the total text is no longer than `buffer_threshold`
(in particular for the spec's `"<PHONE>"` scenario): every `transform_chunk`
call buffers silently and the single flush processes the whole text. -/
theorem claimC1_amended (ps : List OnPattern) (maxB : Nat) (chunks : List Str)
    (hlen : chunks.flatten.length ≤ calculateBufferThreshold ps maxB) :
    runStream ps maxB chunks = runStream ps maxB [chunks.flatten] := by
  rw [runStream_small ps maxB chunks hlen,
    runStream_small ps maxB [chunks.flatten] (by simpa using hlen)]
  simp

/-- Witness for C1 (amended): the spec's concrete scenario, `"Call <PHO"`
then `"NE> now!"` versus the whole text at once. -/
theorem claimC1_witness :
    [phoneText.take 9, phoneText.drop 9].flatten.length
        ≤ calculateBufferThreshold [phonePattern] 10240
    ∧ runStream [phonePattern] 10240 [phoneText.take 9, phoneText.drop 9]
        = runStream [phonePattern] 10240 [[phoneText.take 9, phoneText.drop 9].flatten] :=
  ⟨by decide,
   claimC1_amended [phonePattern] 10240 [phoneText.take 9, phoneText.drop 9] (by decide)⟩

/-- Claim C2, counterexample: with the single pattern `"aa" -> "X"` and
`max_buffer_size = 12` (threshold 6), the single chunk `"aaaccccc"` yields
`transform_chunk(T) + flush() = "aXccccc"` while one whole-text
`apply_patterns` pass yields `"Xaccccc"`: the adjustment step moves the
boundary inside the first committed match of the overlapping run `"aaa"`. -/
theorem claimC2_counterexample :
    (transformChunk (mkHandler [aaPattern] 12) exTextC2).1
        ++ (flush (transformChunk (mkHandler [aaPattern] 12) exTextC2).2).1
      ≠ (applyPatterns [aaPattern] exTextC2 stats0).1 := by
  decide

/-- Claim C2 (amended): for a nonempty single chunk no longer than
`buffer_threshold`, `transform_chunk(T) + flush()` equals one whole-text
`apply_patterns` pass. -/
theorem claimC2_amended (ps : List OnPattern) (maxB : Nat) (t : Str) (hne : t ≠ [])
    (hlen : t.length ≤ calculateBufferThreshold ps maxB) :
    (transformChunk (mkHandler ps maxB) t).1
        ++ (flush (transformChunk (mkHandler ps maxB) t).2).1
      = (applyPatterns ps t stats0).1 := by
  obtain ⟨ho, hb⟩ := transformChunk_small (mkHandler ps maxB) t
    (by simpa [mkHandler] using hlen)
  rw [ho, flush_fst, hb, (transformChunk_fields (mkHandler ps maxB) t).1]
  simp only [mkHandler, List.nil_append]
  rw [if_neg (by simpa [List.isEmpty_iff] using hne)]
  exact (applyPatterns_factor ps t _).1

/-- Witness for C2 (amended): the phone scenario delivered as one chunk. -/
theorem claimC2_witness :
    phoneText ≠ []
    ∧ phoneText.length ≤ calculateBufferThreshold [phonePattern] 10240
    ∧ (transformChunk (mkHandler [phonePattern] 10240) phoneText).1
        ++ (flush (transformChunk (mkHandler [phonePattern] 10240) phoneText).2).1
      = (applyPatterns [phonePattern] phoneText stats0).1 :=
  ⟨by decide, by decide,
   claimC2_amended [phonePattern] 10240 phoneText (by decide) (by decide)⟩

/-- Claim C3, counterexample: for `Pattern("<PHONE>", ...)` (literal length
7) with the default `max_buffer_size = 10240` the constructor sets the
threshold to 100, not the claimed `clamp(7 + 50, 50, 5120) = 57`: the code
takes the maximum of the pattern length with the fixed minimum 50 before
adding the safety margin. -/
theorem claimC3_counterexample :
    calculateBufferThreshold [phonePattern] 10240
      ≠ claimedThreshold phoneLit.length 10240 := by
  decide

/-- Claim C3 (amended): with no patterns the threshold is exactly 50;
otherwise it is `min(max(50, L) + 50, max_buffer_size / 2)` where `L` is the
length of the longest compiled pattern source string (for literals, the
escaped literal). -/
theorem claimC3_amended (ps : List OnPattern) (maxB : Nat) :
    calculateBufferThreshold ps maxB = amendedThreshold ps maxB
    ∧ calculateBufferThreshold [] maxB = MIN_BUFFER_SIZE := by
  constructor
  · unfold calculateBufferThreshold amendedThreshold
    split
    · rfl
    · rw [foldl_max_eq]
  · rfl

/-- Claim C4, counterexample: with an empty pattern list and
`max_buffer_size = 10`, one chunk of 40 characters (cumulative length over
the cap, no pattern ever matching) returns the empty string — no forced
flush — and leaves the buffer at 40 characters, above `max_buffer_size`:
the retention threshold 50 exceeds the cap. -/
theorem claimC4_counterexample :
    (transformChunk (mkHandler [] 10) (List.replicate 40 'a')).1 = []
    ∧ 10 < (transformChunk (mkHandler [] 10) (List.replicate 40 'a')).2.buffer.length
    ∧ 10 < (List.replicate 40 'a').length := by
  refine ⟨by decide, by decide, by decide⟩

/-- Claim C4 (amended): provided `buffer_threshold ≤ max_buffer_size`
(always true for a nonempty pattern list, and for the empty list whenever
`max_buffer_size ≥ 50`), the buffer length is at most `max_buffer_size`
after every `transform_chunk` call, and feeding chunks of cumulative length
above `max_buffer_size` while no pattern ever matches forces at least one
non-empty return. -/
theorem claimC4_amended (ps : List OnPattern) (maxB : Nat) (chunks : List Str)
    (hthr : calculateBufferThreshold ps maxB ≤ maxB) :
    (∀ n, (feedChunks (mkHandler ps maxB) (chunks.take n)).2.buffer.length ≤ maxB)
    ∧ ((∀ p ∈ ps, ∀ s, p.matchLen s = none) →
       maxB < (chunks.map List.length).sum →
       (feedChunks (mkHandler ps maxB) chunks).1 ≠ []) := by
  constructor
  · intro n
    exact feedChunks_bound (chunks.take n) (mkHandler ps maxB) hthr (by simp [mkHandler])
  · intro hm hsum hout
    have hb := feedChunks_nomatch_empty chunks (mkHandler ps maxB)
      (by simpa [mkHandler] using hm) hout
    have hbound := feedChunks_bound chunks (mkHandler ps maxB) hthr (by simp [mkHandler])
    rw [hb] at hbound
    have hflat : chunks.flatten.length = (chunks.map List.length).sum :=
      List.length_flatten chunks
    simp only [mkHandler, List.nil_append] at hbound
    omega

/-- Witness for C4 (amended): a never-matching pattern, `max_buffer_size`
12 (threshold 6), one 13-character chunk: the forced flush emits output. -/
theorem claimC4_witness :
    calculateBufferThreshold [noneMatchPattern] 12 ≤ 12
    ∧ 12 < ([List.replicate 13 'a'].map List.length).sum
    ∧ (feedChunks (mkHandler [noneMatchPattern] 12) [List.replicate 13 'a']).1 ≠ [] :=
  ⟨by decide, by decide,
   (claimC4_amended [noneMatchPattern] 12 [List.replicate 13 'a'] (by decide)).2
     (by
       intro p hp s
       rw [List.mem_singleton] at hp
       rw [hp]
       rfl)
     (by decide)⟩

/-- Claim C5: for a pattern with cap `k ≥ 0` and a never-failing replacement
`f`, on a text with more than `k` scan-order matches a single
`_apply_single_pattern` call replaces exactly the first `k` matches (the
rest stay as original text, per `specReplaceFirst`) and adds exactly `k` to
`patterns_applied`; the counter starts from zero on every call regardless of
the incoming stats. -/
theorem claimC5 (src : Str) (m : Matcher) (f : Str → Str) (k : Int) (t : Str)
    (st : Stats) (hk : 0 ≤ k) (hn : k.toNat < countMatches m t) :
    applySinglePattern ⟨src, m, fun x => .ok (f x), k⟩ t st
      = (specReplaceFirst m f k.toNat t,
         { st with applied := st.applied + k.toNat }) := by
  unfold applySinglePattern specReplaceFirst
  rw [applySingleAux_pure src m f k hk (t.length + 1) t 0 st]
  unfold countMatches at hn
  have hmin : min (k.toNat - 0) (countAux m (t.length + 1) t) = k.toNat := by omega
  rw [hmin, Nat.sub_zero]

/-- Witness for C5: `"a" -> "X"` with cap 1 on `"aaa"`. -/
theorem claimC5_witness :
    (0 : Int) ≤ 1
    ∧ (1 : Int).toNat < countMatches (litMatch ['a']) ['a', 'a', 'a']
    ∧ applySinglePattern ⟨['a'], litMatch ['a'], fun _ => .ok ['X'], 1⟩
        ['a', 'a', 'a'] stats0
      = (specReplaceFirst (litMatch ['a']) (fun _ => ['X']) (1 : Int).toNat
          ['a', 'a', 'a'],
         { stats0 with applied := stats0.applied + (1 : Int).toNat }) :=
  ⟨by decide, by decide,
   claimC5 ['a'] (litMatch ['a']) (fun _ => ['X']) 1 ['a', 'a', 'a'] stats0
     (by decide) (by decide)⟩

/-- Claim C6: a pattern whose replacement always raises (with any nonzero
cap, e.g. the default `-1`) leaves the text unchanged — every one of its
matches stays as the original matched text —, adds one error per match of
that pattern, and leaves the other patterns' text result and
`patterns_applied` exactly as if it were absent. -/
theorem claimC6 (ps1 ps2 : List OnPattern) (src : Str) (m : Matcher) (k : Int)
    (hk : k ≠ 0) (t : Str) (st : Stats) :
    ((applyPatterns (ps1 ++ ⟨src, m, fun _ => .error (), k⟩ :: ps2) t st).1
        = (applyPatterns (ps1 ++ ps2) t st).1)
    ∧ ((applyPatterns (ps1 ++ ⟨src, m, fun _ => .error (), k⟩ :: ps2) t st).2.applied
        = (applyPatterns (ps1 ++ ps2) t st).2.applied)
    ∧ ((applyPatterns (ps1 ++ ⟨src, m, fun _ => .error (), k⟩ :: ps2) t st).2.errors
        = (applyPatterns (ps1 ++ ps2) t st).2.errors
          + countMatches m (applyPatterns ps1 t st).1) := by
  have hmid : ∀ (t1 : Str) (st1 : Stats),
      applyPatterns (⟨src, m, fun _ => .error (), k⟩ :: ps2) t1 st1
        = applyPatterns ps2 t1 { st1 with errors := st1.errors + countMatches m t1 } := by
    intro t1 st1
    have hstep : applyPatterns (⟨src, m, fun _ => .error (), k⟩ :: ps2) t1 st1
        = applyPatterns ps2
            (applySinglePattern ⟨src, m, fun _ => .error (), k⟩ t1 st1).1
            (applySinglePattern ⟨src, m, fun _ => .error (), k⟩ t1 st1).2 := rfl
    rw [hstep,
      show applySinglePattern ⟨src, m, fun _ => .error (), k⟩ t1 st1
          = (t1, { st1 with errors := st1.errors + countMatches m t1 }) from
        applySingleAux_allFail src m k hk _ t1 st1]
  rw [applyPatterns_append, applyPatterns_append, hmid]
  obtain h1 := applyPatterns_factor ps2 (applyPatterns ps1 t st).1
    { (applyPatterns ps1 t st).2 with
      errors := (applyPatterns ps1 t st).2.errors
        + countMatches m (applyPatterns ps1 t st).1 }
  obtain h2 := applyPatterns_factor ps2 (applyPatterns ps1 t st).1
    (applyPatterns ps1 t st).2
  refine ⟨?_, ?_, ?_⟩
  · rw [h1.1, h2.1]
  · rw [h1.2, h2.2]
    rfl
  · rw [h1.2, h2.2]
    simp only [Stats.add_errors]
    omega

/-- Witness for C6: `"a"` with an always-raising replacement on `"aba"`
(two matches, two errors, text unchanged). -/
theorem claimC6_witness :
    ((applyPatterns ([] ++ ⟨['a'], litMatch ['a'], fun _ => .error (), -1⟩ :: [])
        ['a', 'b', 'a'] stats0).1
      = (applyPatterns ([] ++ []) ['a', 'b', 'a'] stats0).1)
    ∧ ((applyPatterns ([] ++ ⟨['a'], litMatch ['a'], fun _ => .error (), -1⟩ :: [])
        ['a', 'b', 'a'] stats0).2.applied
      = (applyPatterns ([] ++ []) ['a', 'b', 'a'] stats0).2.applied)
    ∧ ((applyPatterns ([] ++ ⟨['a'], litMatch ['a'], fun _ => .error (), -1⟩ :: [])
        ['a', 'b', 'a'] stats0).2.errors
      = (applyPatterns ([] ++ []) ['a', 'b', 'a'] stats0).2.errors
        + countMatches (litMatch ['a']) (applyPatterns [] ['a', 'b', 'a'] stats0).1) :=
  claimC6 [] [] ['a'] (litMatch ['a']) (-1) (by decide) ['a', 'b', 'a'] stats0

/-- Claim C7: `flush` is a total function (it cannot raise); after it the
buffer is always empty; on an empty buffer it returns the empty string and
leaves the handler unchanged; on a nonempty buffer it returns the
pattern-transformed buffer and clears it.  (The source's exception branch is
unreachable here: every replacement failure is already absorbed per match
inside `_apply_single_pattern`, so `_apply_patterns` is total.) -/
theorem claimC7 (g : Handler) :
    (flush g).2.buffer = []
    ∧ (g.buffer = [] → flush g = ([], g))
    ∧ (g.buffer ≠ [] →
        flush g = ((applyPatterns g.patterns g.buffer g.stats).1,
                   { g with buffer := [],
                            stats := (applyPatterns g.patterns g.buffer g.stats).2 })) := by
  refine ⟨?_, ?_, ?_⟩
  · unfold flush
    dsimp only
    split
    · next hb =>
      rw [List.isEmpty_iff] at hb
      exact hb
    · rfl
  · intro hb
    unfold flush
    rw [if_pos (by simpa [List.isEmpty_iff] using hb)]
  · intro hb
    unfold flush
    rw [if_neg (by simpa [List.isEmpty_iff] using hb)]

/-- Witness for C7: flushing a handler holding the phone text. -/
theorem claimC7_witness :
    (flush { mkHandler [phonePattern] 10240 with buffer := phoneText }).2.buffer = []
    ∧ flush { mkHandler [phonePattern] 10240 with buffer := phoneText }
        = ((applyPatterns [phonePattern] phoneText stats0).1,
           { mkHandler [phonePattern] 10240 with
             buffer := ([] : Str),
             stats := (applyPatterns [phonePattern] phoneText stats0).2 }) :=
  ⟨(claimC7 _).1,
   (claimC7 { mkHandler [phonePattern] 10240 with buffer := phoneText }).2.2 (by decide)⟩

/-- Claim C8: `OnPattern` construction fails with a type error exactly when
the matcher is neither a literal string nor a pre-compiled pattern or the
replacement is neither a literal string nor callable; and a literal-string
matcher is compiled (escaped) so that it matches itself exactly — anchored
on any text beginning with the literal it matches with the literal's full
length, with or without `ignore_case`. -/
theorem claimC8 :
    (∀ (pa : PatternArg) (ra : ReplacementArg) (ic : Bool) (mr : Int),
       isOkB (postInit pa ra ic mr) = (!pa.isOther && !ra.isOther))
    ∧ (∀ (s rest : Str) (ic : Bool) (mr : Int) (rs : Str),
        ∃ p, postInit (.pstr s) (.rstr rs) ic mr = .ok p
          ∧ p.matchLen (s ++ rest) = some s.length) := by
  constructor
  · intro pa ra ic mr
    cases pa <;> cases ra <;> rfl
  · intro s rest ic mr rs
    cases ic with
    | false =>
      refine ⟨_, rfl, ?_⟩
      simp [litMatch, isPre_append]
    | true =>
      refine ⟨_, rfl, ?_⟩
      simp [litMatchCI, List.map_append, isPre_append]

/-- Claim C9: with cap `k ≥ 0`, a failed replacement invocation does not
consume the `max_replacements` budget — `patterns_applied` grows by
`min(k, number of scan-order matches whose replacement succeeds)`, counting
only successful replacements — and `errors` counts exactly the failing
attempts made while budget remained (capped-out matches touch neither
counter). -/
theorem claimC9 (src : Str) (m : Matcher) (r : Str → Except Unit Str) (k : Int)
    (t : Str) (st : Stats) (hk : 0 ≤ k) :
    (applySinglePattern ⟨src, m, r, k⟩ t st).2
      = { st with
          applied := st.applied + min k.toNat (countOk m r t),
          errors := st.errors + countErrWithin m r k.toNat t } := by
  unfold applySinglePattern countOk countErrWithin
  rw [applySingleAux_counters src m r k hk (t.length + 1) t 0 st]
  rw [Nat.sub_zero]

/-- Witness for C9: matcher hitting `'a'` (replacement raises) and `'b'`
(replacement succeeds) with cap 2 on `"ababab"`: two successes, two counted
errors, the final `'a'` and `'b'` attempts capped out. -/
theorem claimC9_witness :
    (0 : Int) ≤ 2
    ∧ (applySinglePattern ⟨['m'], mixMatcher, mixRepl, 2⟩
        ['a', 'b', 'a', 'b', 'a', 'b'] stats0).2
      = { stats0 with
          applied := stats0.applied
            + min (2 : Int).toNat (countOk mixMatcher mixRepl ['a', 'b', 'a', 'b', 'a', 'b']),
          errors := stats0.errors
            + countErrWithin mixMatcher mixRepl (2 : Int).toNat
                ['a', 'b', 'a', 'b', 'a', 'b'] } :=
  ⟨by decide,
   claimC9 ['m'] mixMatcher mixRepl 2 ['a', 'b', 'a', 'b', 'a', 'b'] stats0 (by decide)⟩

/-- Claim C10: `_find_safe_boundary` never returns more than
`len(buffer) - buffer_threshold` (the straddle fix and the partial-pattern
adjustment only move the boundary earlier), so whenever `transform_chunk`
returns a non-empty string while the appended buffer is within
`max_buffer_size`, at least `buffer_threshold` characters remain buffered. -/
theorem claimC10 (g : Handler) (c : Str)
    (_hmax : g.buffer.length + c.length ≤ g.maxBufferSize)
    (hne : (transformChunk g c).1 ≠ []) :
    ((findSafeBoundary
        { g with buffer := g.buffer ++ c,
                 stats := { g.stats with chunks := g.stats.chunks + 1 } } : Int)
        ≤ max 0 (((g.buffer.length + c.length : Nat) : Int) - g.bufferThreshold))
    ∧ g.bufferThreshold ≤ (transformChunk g c).2.buffer.length := by
  have hle := findSafeBoundary_le
    { g with buffer := g.buffer ++ c,
             stats := { g.stats with chunks := g.stats.chunks + 1 } }
  dsimp only at hle
  rw [List.length_append] at hle
  constructor
  · exact hle
  · by_cases hc : c.isEmpty
    · exfalso
      apply hne
      unfold transformChunk
      rw [if_pos hc]
    · have h0 : findSafeBoundary
          { g with buffer := g.buffer ++ c,
                   stats := { g.stats with chunks := g.stats.chunks + 1 } } ≠ 0 := by
        intro h0
        apply hne
        unfold transformChunk
        dsimp only
        rw [if_neg hc, if_pos h0]
      rw [transformChunk_buffer, if_neg hc, List.length_drop, List.length_append]
      dsimp only at h0 ⊢
      omega

/-- Witness for C10: a 7-character chunk on a fresh handler with threshold 6
emits one character and retains exactly the threshold. -/
theorem claimC10_witness :
    (mkHandler [noneMatchPattern] 12).buffer.length + (List.replicate 7 'x').length
        ≤ (mkHandler [noneMatchPattern] 12).maxBufferSize
    ∧ (transformChunk (mkHandler [noneMatchPattern] 12) (List.replicate 7 'x')).1 ≠ []
    ∧ (mkHandler [noneMatchPattern] 12).bufferThreshold
        ≤ (transformChunk (mkHandler [noneMatchPattern] 12)
            (List.replicate 7 'x')).2.buffer.length :=
  ⟨by decide, by decide,
   (claimC10 (mkHandler [noneMatchPattern] 12) (List.replicate 7 'x')
      (by decide) (by decide)).2⟩
